import Mathlib

/-!
Verification of the IBAMR restart-directory cleanup tool.

Shallow embedding of `src/restart_cleaner_standalone.{h,cpp}` and
`src/main_standalone.cpp`.  Strings are Lean strings (lists of characters),
C++ `int` values are modelled as `Int` with the 32-bit range checked
explicitly where the source checks it (`std::stoi`), the filesystem is a
`DirState` (existence and readability of the base path plus its list of
child entries), and C++ exceptions are `Except`.
-/

/-- Model of the C locale `std::isspace`, used by `std::stoi` to skip
leading whitespace. -/
def cppIsSpace (c : Char) : Bool :=
  c = ' ' || c = '\t' || c = '\n' || c = Char.ofNat 11 || c = Char.ofNat 12 || c = '\r'

/-- Numeric value of a list of decimal digit characters, base 10 with
leading zeros allowed, as computed by `std::stoi` on its digit run. -/
def digitsVal (ds : List Char) : Int :=
  ds.foldl (fun a c => 10 * a + ((c.toNat : Int) - ('0'.toNat : Int))) 0

/-- The two exceptions `std::stoi` can throw. -/
inductive StoiError where
  | invalidArgument
  | outOfRange
deriving DecidableEq, Repr

/-- INT_MIN for 32-bit int. -/
def intMin : Int := -2147483648

/-- INT_MAX for 32-bit int. -/
def intMax : Int := 2147483647

/-- Model of `std::stoi` on a character list: skip leading whitespace, read
an optional sign, then a maximal non-empty run of decimal digits (trailing
characters are ignored); throws `invalid_argument` when no digits are
found and `out_of_range` when the value does not fit in a 32-bit int. -/
def stoiCore (cs : List Char) : Except StoiError Int :=
  let cs1 := cs.dropWhile cppIsSpace
  let neg : Bool := cs1.head? = some '-'
  let hasSign : Bool := neg || decide (cs1.head? = some '+')
  let cs2 := if hasSign then cs1.tail else cs1
  let digs := cs2.takeWhile Char.isDigit
  if digs.isEmpty then
    .error .invalidArgument
  else
    let v := (if neg then (-1 : Int) else 1) * digitsVal digs
    if v < intMin ∨ intMax < v then .error .outOfRange else .ok v

/-- Model of `std::stoi` on a string. -/
def stoi (s : String) : Except StoiError Int :=
  stoiCore s.data

/-- Embedding of `RestartCleaner::parseIterationNum`
(`src/restart_cleaner_standalone.cpp` lines 106-137): a name parses iff it
is exactly 14 characters, starts with the 8 characters of `restore.`, and
its remaining 6 characters are all decimal digits; on success the digit
run is converted with `std::stoi`, with the conversion's exceptions mapped
to the sentinel `-1`. -/
def parseIterationNum (dirname : String) : Int :=
  let cs := dirname.data
  if cs.length ≠ 14 ∨ cs.take 8 ≠ "restore.".data then
    -1
  else
    let number_part := cs.drop 8
    if number_part.length ≠ 6 then
      -1
    else if ¬ (number_part.all Char.isDigit) then
      -1
    else
      match stoiCore number_part with
      | .ok v => v
      | .error _ => -1

/-- One immediate child of the restart base directory: its file name,
whether it is a directory, and whether `std::filesystem::remove_all` on it
would succeed (false models e.g. a permission error during deletion). -/
structure Entry where
  name : String
  isDir : Bool
  deletable : Bool
deriving DecidableEq, Repr

/-- The filesystem state visible to the cleaner: whether the base path
exists, whether iterating it is permitted (a failing
`std::filesystem::directory_iterator` models e.g. permission denied), and
its list of immediate children in enumeration order. -/
structure DirState where
  pathExists : Bool
  readPermitted : Bool
  entries : List Entry
deriving DecidableEq, Repr

/-- The strategy enumeration of `RestartCleaner` (header lines 117-120). -/
inductive CleanupStrategy where
  | KEEP_RECENT_N
deriving DecidableEq, Repr

/-- The configuration a successfully constructed `RestartCleaner` holds;
all four data members are `const` in the source. -/
structure RestartCleaner where
  d_restart_base_path : String
  d_strategy : CleanupStrategy
  d_keep_restart_count : Int
  d_dry_run : Bool
deriving DecidableEq, Repr

/-- Embedding of `RestartCleaner::parseStrategy` (lines 89-97): only the
string KEEP_RECENT_N is recognized, anything else throws
`std::invalid_argument`. -/
def parseStrategy (strategy_str : String) : Except String CleanupStrategy :=
  if strategy_str = "KEEP_RECENT_N" then
    .ok .KEEP_RECENT_N
  else
    .error ("RestartCleaner: Unknown strategy: " ++ strategy_str)

/-- Embedding of the `RestartCleaner` constructor (lines 32-50).  The
member initializer list runs `parseStrategy` first, then the body checks
`keep_restart_count <= 0` and then `fs::exists(restart_base_path)`; the
`pathExists` argument is the existence of the base path at construction
time. -/
def mkRestartCleaner (restart_base_path : String) (pathExists : Bool)
    (keep_restart_count : Int) (strategy : String) (dry_run : Bool) :
    Except String RestartCleaner :=
  match parseStrategy strategy with
  | .error e => .error e
  | .ok strat =>
    if keep_restart_count ≤ 0 then
      .error "RestartCleaner: keep_restart_count must be positive"
    else if ¬ pathExists then
      .error ("RestartCleaner: restart_base_path does not exist: " ++ restart_base_path)
    else
      .ok ⟨restart_base_path, strat, keep_restart_count, dry_run⟩

/-- The filter the scan loop of `getAllRestartDirs` applies to the
children of the base directory: keep an entry iff it is a directory and
its name parses to a non-negative iteration number. -/
def validDirs (st : DirState) : List Entry :=
  st.entries.filter fun e => e.isDir && decide (0 ≤ parseIterationNum e.name)

/-- Embedding of `RestartCleaner::getAllRestartDirs` (lines 139-166): if
the base path exists, iterate its children keeping directories whose name
parses, rethrowing any iteration failure as a scan error; if the base path
does not exist, the loop is skipped and the empty list is returned. -/
def getAllRestartDirs (st : DirState) : Except String (List Entry) :=
  if st.pathExists then
    if st.readPermitted then
      .ok (validDirs st)
    else
      .error "RestartCleaner: Error scanning directory"
  else
    .ok []

/-- Embedding of `RestartCleaner::getAvailableIterations` (lines 60-85):
scan, collect the parsed iteration numbers that are non-negative, sort
ascending; a scan error is caught and leaves the collected list empty. -/
def getAvailableIterations (st : DirState) : List Int :=
  match getAllRestartDirs st with
  | .error _ => []
  | .ok all_dirs =>
    let iterations :=
      (all_dirs.map fun e => parseIterationNum e.name).filter fun i => decide (0 ≤ i)
    iterations.insertionSort (· ≤ ·)

/-- One observable step of `keepRecentN`, standing for its console
reporting and deletion attempts. -/
inductive CleanAction where
  | noneFound
  | noCleanupNeeded (total : Nat)
  | wouldDelete (name : String)
  | deleted (name : String)
  | deleteErr (name : String)
deriving DecidableEq, Repr

/-- Model of `fs::remove_all` on one child of the base directory together
with the `try/catch` around it in `keepRecentN` (lines 216-224): a
deletable entry is removed from the state, a failing removal is caught and
reported, leaving the state unchanged. -/
def remove_all (st : DirState) (name : String) : DirState × CleanAction :=
  match st.entries.find? (fun e => e.name = name) with
  | some e =>
    if e.deletable then
      ({ st with entries := st.entries.filter fun e2 => e2.name ≠ name }, .deleted name)
    else
      (st, .deleteErr name)
  | none => (st, .deleted name)

/-- The order `std::sort` establishes on `std::pair<int, fs::path>` in
`keepRecentN`: lexicographic, iteration number first, then path. -/
def pairR (a b : Int × String) : Prop :=
  a.1 < b.1 ∨ (a.1 = b.1 ∧ a.2 ≤ b.2)

instance : DecidableRel pairR := fun a b =>
  inferInstanceAs (Decidable (a.1 < b.1 ∨ (a.1 = b.1 ∧ a.2 ≤ b.2)))

instance : IsTrans (Int × String) pairR := by
  constructor
  intro a b c hab hbc
  rcases hab with h1 | ⟨h1, h1'⟩ <;> rcases hbc with h2 | ⟨h2, h2'⟩
  · exact Or.inl (h1.trans h2)
  · exact Or.inl (h2 ▸ h1)
  · exact Or.inl (h1 ▸ h2)
  · exact Or.inr ⟨h1.trans h2, h1'.trans h2'⟩

instance : IsTotal (Int × String) pairR := by
  constructor
  intro a b
  rcases lt_trichotomy a.1 b.1 with h | h | h
  · exact Or.inl (Or.inl h)
  · rcases le_total a.2 b.2 with h' | h'
    · exact Or.inl (Or.inr ⟨h, h'⟩)
    · exact Or.inr (Or.inr ⟨h.symm, h'⟩)
  · exact Or.inr (Or.inl h)

/-- The `dirs_with_iter` loop of `keepRecentN` (lines 181-190): pair each
scanned directory with its parsed iteration number, keeping the
non-negative ones. -/
def dirsWithIter (all_dirs : List Entry) : List (Int × String) :=
  (all_dirs.map fun e => (parseIterationNum e.name, e.name)).filter fun p =>
    decide (0 ≤ p.1)

/-- The body of the deletion loop of `keepRecentN` in non-dry-run mode
(lines 206-226): attempt to remove one selected directory and append the
resulting report. -/
def deleteStep (acc : DirState × List CleanAction) (p : Int × String) :
    DirState × List CleanAction :=
  let r := remove_all acc.1 p.2
  (r.1, acc.2 ++ [r.2])

/-- Embedding of `RestartCleaner::keepRecentN` (lines 168-227).  Returns
the filesystem state after the run and the list of reported actions, or a
scan error. -/
def keepRecentN (self : RestartCleaner) (st : DirState) :
    Except String (DirState × List CleanAction) :=
  match getAllRestartDirs st with
  | .error e => .error e
  | .ok all_dirs =>
    if all_dirs.isEmpty then
      .ok (st, [.noneFound])
    else
      let sorted := (dirsWithIter all_dirs).insertionSort pairR
      if (sorted.length : Int) ≤ self.d_keep_restart_count then
        .ok (st, [.noCleanupNeeded sorted.length])
      else
        let num_to_delete := ((sorted.length : Int) - self.d_keep_restart_count).toNat
        let toDelete := sorted.take num_to_delete
        if self.d_dry_run then
          .ok (st, toDelete.map fun p => .wouldDelete p.2)
        else
          .ok (toDelete.foldl deleteStep (st, []))

/-- Embedding of `RestartCleaner::executeStrategy` (lines 99-104): the one
existing strategy is dispatched directly. -/
def executeStrategy (self : RestartCleaner) (st : DirState) :
    Except String (DirState × List CleanAction) :=
  keepRecentN self st

/-- Embedding of `RestartCleaner::cleanup` (lines 52-58): print two banner
lines and run the strategy; a scan error propagates to the caller. -/
def cleanup (self : RestartCleaner) (st : DirState) :
    Except String (DirState × List CleanAction) :=
  executeStrategy self st

/-- Result of one run of `main` (src/main_standalone.cpp): the process
exit code, the filesystem state afterwards, and the printed final count of
remaining directories when the run succeeded. -/
structure MainResult where
  exitCode : Int
  finalState : DirState
  remainingCount : Option Nat
deriving DecidableEq, Repr

/-- Embedding of `main` (src/main_standalone.cpp lines 27-89).  `args` is
`argv[1..]`, so `argc = args.length + 1`; `st` is the filesystem state at
invocation time. -/
def mainModel (args : List String) (st : DirState) : MainResult :=
  if args.length + 1 < 4 ∨ 5 < args.length + 1 then
    ⟨1, st, none⟩
  else
    let option := args.getD 0 ""
    let restart_dir := args.getD 2 ""
    if option ≠ "--recent" then
      ⟨1, st, none⟩
    else
      let dryRunCheck : Option Bool :=
        if args.length + 1 = 5 then
          if args.getD 3 "" = "--dry-run" then some true else none
        else
          some false
      match dryRunCheck with
      | none => ⟨1, st, none⟩
      | some dry_run =>
        match stoi (args.getD 1 "") with
        | .error _ => ⟨1, st, none⟩
        | .ok keep_count =>
          if keep_count ≤ 0 then
            ⟨1, st, none⟩
          else
            match mkRestartCleaner restart_dir st.pathExists keep_count
                "KEEP_RECENT_N" dry_run with
            | .error _ => ⟨1, st, none⟩
            | .ok cleaner =>
              match cleanup cleaner st with
              | .error _ => ⟨1, st, none⟩
              | .ok (st2, _) =>
                ⟨0, st2, some (getAvailableIterations st2).length⟩

/-- The sorted (iteration, name) list `keepRecentN` builds from a
successful scan of `st`. -/
def sortedPairs (st : DirState) : List (Int × String) :=
  (dirsWithIter (validDirs st)).insertionSort pairR

/-- The deletion set of a `keepRecentN` run: the first
`total - keepCount` elements of the sorted pair list. -/
def deletionSet (self : RestartCleaner) (st : DirState) : List (Int × String) :=
  (sortedPairs st).take (((sortedPairs st).length : Int) - self.d_keep_restart_count).toNat

/-- The retained set of a `keepRecentN` run: the remaining elements of
the sorted pair list. -/
def retainedSet (self : RestartCleaner) (st : DirState) : List (Int × String) :=
  (sortedPairs st).drop (((sortedPairs st).length : Int) - self.d_keep_restart_count).toNat

/-- The directory name a reported action refers to, when it is a deletion
attempt (reported, executed, or failed); `none` for the purely
informational reports. -/
def actName : CleanAction → Option String
  | .noneFound => none
  | .noCleanupNeeded _ => none
  | .wouldDelete n => some n
  | .deleted n => some n
  | .deleteErr n => some n

/-- The spec's characterization of a valid directory name: exactly the
literal `restore.` followed by exactly 6 decimal-digit characters and
nothing else. -/
def specValidName (s : String) : Prop :=
  ∃ ds : List Char, ds.length = 6 ∧ ds.all Char.isDigit = true ∧
    s.data = "restore.".data ++ ds

/-- The conditions under which a run of `main` succeeds: right argument
count, the `--recent` option, a well-placed `--dry-run` flag if any, a
keep count that parses as a positive `int`, and a base directory that
exists and can be scanned. -/
def argsOk (args : List String) (st : DirState) : Prop :=
  (args.length = 3 ∨ args.length = 4) ∧
  args.getD 0 "" = "--recent" ∧
  (args.length = 4 → args.getD 3 "" = "--dry-run") ∧
  (∃ n, stoi (args.getD 1 "") = .ok n ∧ 0 < n) ∧
  st.pathExists = true ∧ st.readPermitted = true

/-! ### Lemmas about digit parsing -/

lemma isDigit_toNat_bounds (c : Char) (h : c.isDigit = true) :
    48 ≤ c.toNat ∧ c.toNat ≤ 57 := by
  simp only [Char.isDigit, Bool.and_eq_true, decide_eq_true_eq] at h
  obtain ⟨h1, h2⟩ := h
  constructor
  · exact_mod_cast UInt32.le_def.mp h1
  · exact_mod_cast UInt32.le_def.mp h2

lemma digit_ne (c : Char) (h : c.isDigit = true) (d : Char) (hd : d.isDigit = false) :
    c ≠ d := by
  intro he
  subst he
  rw [h] at hd
  exact Bool.noConfusion hd

lemma cppIsSpace_of_isDigit (c : Char) (h : c.isDigit = true) : cppIsSpace c = false := by
  simp only [cppIsSpace, Bool.or_eq_false_iff, decide_eq_false_iff_not]
  refine ⟨⟨⟨⟨⟨?_, ?_⟩, ?_⟩, ?_⟩, ?_⟩, ?_⟩ <;> (apply digit_ne c h; decide)

lemma digitsVal_shift (ds : List Char) (a : Int) :
    List.foldl (fun x c => 10 * x + ((c.toNat : Int) - ('0'.toNat : Int))) a ds
      = a * 10 ^ ds.length + digitsVal ds := by
  induction ds generalizing a with
  | nil => simp [digitsVal]
  | cons c ds ih =>
    have hd : digitsVal (c :: ds)
        = List.foldl (fun x c => 10 * x + ((c.toNat : Int) - ('0'.toNat : Int)))
            (10 * 0 + ((c.toNat : Int) - ('0'.toNat : Int))) ds := rfl
    rw [List.foldl_cons, ih, hd, ih, List.length_cons]
    ring

lemma digitsVal_cons (c : Char) (ds : List Char) :
    digitsVal (c :: ds)
      = ((c.toNat : Int) - 48) * 10 ^ ds.length + digitsVal ds := by
  have hd : digitsVal (c :: ds)
      = List.foldl (fun x c => 10 * x + ((c.toNat : Int) - ('0'.toNat : Int)))
          (10 * 0 + ((c.toNat : Int) - ('0'.toNat : Int))) ds := rfl
  have h0 : ('0'.toNat : Int) = 48 := rfl
  rw [hd, digitsVal_shift, h0]
  ring

lemma digitsVal_bounds (ds : List Char) (h : ds.all Char.isDigit = true) :
    0 ≤ digitsVal ds ∧ digitsVal ds < 10 ^ ds.length := by
  induction ds with
  | nil => simp [digitsVal]
  | cons c ds ih =>
    rw [List.all_cons, Bool.and_eq_true] at h
    obtain ⟨hc, hds⟩ := h
    obtain ⟨ih1, ih2⟩ := ih hds
    obtain ⟨hb1, hb2⟩ := isDigit_toNat_bounds c hc
    have hv1 : (0 : Int) ≤ (c.toNat : Int) - 48 := by omega
    have hv2 : (c.toNat : Int) - 48 ≤ 9 := by omega
    have hp : (0 : Int) < 10 ^ ds.length := by positivity
    rw [digitsVal_cons, List.length_cons]
    constructor
    · have := mul_nonneg hv1 hp.le
      omega
    · have h9 : ((c.toNat : Int) - 48) * 10 ^ ds.length ≤ 9 * 10 ^ ds.length :=
        mul_le_mul_of_nonneg_right hv2 hp.le
      have h10 : (10 : Int) ^ (ds.length + 1) = 10 * 10 ^ ds.length := by ring
      omega

lemma stoiCore_digits (ds : List Char) (hne : ds ≠ [])
    (h : ds.all Char.isDigit = true) (hlen : ds.length ≤ 9) :
    stoiCore ds = .ok (digitsVal ds) := by
  obtain ⟨c, rest, rfl⟩ := List.exists_cons_of_ne_nil hne
  have hc : c.isDigit = true := by
    rw [List.all_cons, Bool.and_eq_true] at h
    exact h.1
  have hsp : cppIsSpace c = false := cppIsSpace_of_isDigit c hc
  have hminus : c ≠ '-' := digit_ne c hc '-' (by decide)
  have hplus : c ≠ '+' := digit_ne c hc '+' (by decide)
  have hdw : (c :: rest).dropWhile cppIsSpace = c :: rest := by
    rw [List.dropWhile_cons, hsp]
    simp
  have htw : (c :: rest).takeWhile Char.isDigit = c :: rest :=
    List.takeWhile_eq_self_iff.mpr (by
      intro x hx
      exact List.all_eq_true.mp h x hx)
  have hbounds := digitsVal_bounds (c :: rest) h
  have hlt : digitsVal (c :: rest) < 10 ^ 9 := by
    calc digitsVal (c :: rest) < 10 ^ (c :: rest).length := hbounds.2
    _ ≤ 10 ^ 9 := by
      apply pow_le_pow_right₀ (by norm_num) hlen
  have hrange : ¬ (digitsVal (c :: rest) < intMin ∨ intMax < digitsVal (c :: rest)) := by
    simp only [intMin, intMax]
    omega
  simp only [stoiCore, hdw, List.head?_cons, Option.some.injEq, decide_eq_false hminus,
    decide_eq_false hplus, Bool.or_false, Bool.false_or, if_false, htw, List.isEmpty_cons,
    Bool.false_eq_true, one_mul, if_neg hrange]

lemma restore_data_length : ("restore.".data).length = 8 := rfl

lemma parseIterationNum_of_valid (s : String) (ds : List Char)
    (hlen : ds.length = 6) (hdig : ds.all Char.isDigit = true)
    (hs : s.data = "restore.".data ++ ds) :
    parseIterationNum s = digitsVal ds := by
  have hne : ds ≠ [] := by
    intro h
    rw [h] at hlen
    simp at hlen
  simp only [parseIterationNum]
  rw [hs]
  have h1 : ¬ (("restore.".data ++ ds).length ≠ 14 ∨
      ("restore.".data ++ ds).take 8 ≠ "restore.".data) := by
    push_neg
    constructor
    · rw [List.length_append, restore_data_length, hlen]
    · exact List.take_left' restore_data_length
  rw [if_neg h1]
  have hdrop : ("restore.".data ++ ds).drop 8 = ds := List.drop_left' restore_data_length
  rw [hdrop, if_neg (by rw [hlen]; omega), if_neg (by rw [hdig]; simp),
    stoiCore_digits ds hne hdig (by omega)]

lemma parseIterationNum_of_invalid (s : String) (hnv : ¬ specValidName s) :
    parseIterationNum s = -1 := by
  simp only [parseIterationNum]
  split
  · rfl
  · rename_i h1
    split
    · rfl
    · split
      · rfl
      · rename_i h2 h3
        exfalso
        apply hnv
        push_neg at h1
        refine ⟨s.data.drop 8, ?_, ?_, ?_⟩
        · rw [List.length_drop, h1.1]
        · simpa using h3
        · conv_lhs => rw [← List.take_append_drop 8 s.data]
          rw [h1.2]

/-- Claim C2: `parseIterationNum` returns a non-negative iteration number
iff the string is exactly the literal `restore.` followed by exactly 6
decimal-digit characters and nothing else (total length 14); any deviation
yields the sentinel -1; a valid digit run is read as a plain base-10
integer including leading zeros, so `restore.000000` parses to 0 and
`restore.000001` to 1. -/
theorem parseIterationNum_valid_iff (s : String) :
    (0 ≤ parseIterationNum s ↔ specValidName s) ∧
    (¬ specValidName s → parseIterationNum s = -1) ∧
    (specValidName s → s.data.length = 14) ∧
    (∀ ds : List Char, ds.length = 6 → ds.all Char.isDigit = true →
      s.data = "restore.".data ++ ds → parseIterationNum s = digitsVal ds) ∧
    parseIterationNum "restore.000000" = 0 ∧
    parseIterationNum "restore.000001" = 1 := by
  have hval : ∀ ds : List Char, ds.length = 6 → ds.all Char.isDigit = true →
      s.data = "restore.".data ++ ds → parseIterationNum s = digitsVal ds :=
    fun ds h1 h2 h3 => parseIterationNum_of_valid s ds h1 h2 h3
  refine ⟨⟨?_, ?_⟩, parseIterationNum_of_invalid s, ?_, hval, by decide, by decide⟩
  · intro h0
    by_contra hnv
    rw [parseIterationNum_of_invalid s hnv] at h0
    omega
  · rintro ⟨ds, h1, h2, h3⟩
    rw [hval ds h1 h2 h3]
    exact (digitsVal_bounds ds h2).1
  · rintro ⟨ds, h1, _, h3⟩
    rw [h3, List.length_append, restore_data_length, h1]

/-- Witness for C2 at concrete inputs: `restore.000001` is valid and
parses to 1, `restore.00001x` is invalid and parses to the sentinel. -/
theorem parseIterationNum_valid_iff_witness :
    0 ≤ parseIterationNum "restore.000001" ∧
    parseIterationNum "restore.000001" = 1 ∧
    parseIterationNum "restore.00001x" = -1 := by
  have h := parseIterationNum_valid_iff "restore.000001"
  have h2 := parseIterationNum_valid_iff "restore.00001x"
  refine ⟨h.1.mpr ⟨"000001".data, by decide, by decide, by decide⟩, h.2.2.2.2.2, ?_⟩
  apply h2.2.1
  rintro ⟨ds, h1, hdig, hs⟩
  have hds : ds = "00001x".data := by
    have := congrArg (List.drop 8) hs
    simpa using this.symm
  rw [hds] at hdig
  exact absurd hdig (by decide)

/-- Claim C10: for every input string `parseIterationNum` returns -1 or a
value in [0, 999999], and the `std::stoi` conversion succeeds on every
6-digit run that reaches it, so the overflow/exception catch branch is
unreachable. -/
theorem parseIterationNum_range (s : String) :
    (parseIterationNum s = -1 ∨
      (0 ≤ parseIterationNum s ∧ parseIterationNum s ≤ 999999)) ∧
    (∀ ds : List Char, ds.length = 6 → ds.all Char.isDigit = true →
      stoiCore ds = .ok (digitsVal ds)) := by
  constructor
  · by_cases hv : specValidName s
    · obtain ⟨ds, h1, h2, h3⟩ := hv
      right
      rw [parseIterationNum_of_valid s ds h1 h2 h3]
      obtain ⟨b1, b2⟩ := digitsVal_bounds ds h2
      rw [h1] at b2
      norm_num at b2
      exact ⟨b1, by omega⟩
    · exact Or.inl (parseIterationNum_of_invalid s hv)
  · intro ds h1 h2
    refine stoiCore_digits ds ?_ h2 (by omega)
    intro h
    rw [h] at h1
    simp at h1

/-- Witness for C10 at a concrete input: the largest representable name
parses within range and its digit run converts without an exception. -/
theorem parseIterationNum_range_witness :
    (parseIterationNum "restore.999999" = -1 ∨
      (0 ≤ parseIterationNum "restore.999999" ∧
        parseIterationNum "restore.999999" ≤ 999999)) ∧
    stoiCore "999999".data = .ok 999999 := by
  have h := parseIterationNum_range "restore.999999"
  refine ⟨h.1, ?_⟩
  have h2 := h.2 "999999".data (by decide) (by decide)
  rw [h2]
  rfl

/-! ### Lemmas about the deletion loop and the sorted pair list -/

lemma actName_remove_all (st : DirState) (name : String) :
    actName (remove_all st name).2 = some name := by
  rcases hfind : st.entries.find? (fun e => e.name = name) with _ | e
  · simp [remove_all, hfind, actName]
  · by_cases hd : e.deletable
    · simp [remove_all, hfind, hd, actName]
    · simp [remove_all, hfind, hd, actName]

lemma remove_all_entries_sublist (st : DirState) (name : String) :
    (remove_all st name).1.entries.Sublist st.entries := by
  rcases hfind : st.entries.find? (fun e => e.name = name) with _ | e
  · simp [remove_all, hfind]
  · by_cases hd : e.deletable
    · simp only [remove_all, hfind, hd, if_true]
      exact List.filter_sublist _
    · simp [remove_all, hfind, hd]

lemma remove_all_mem_of_ne (st : DirState) (name : String) (e : Entry)
    (he : e ∈ st.entries) (hne : e.name ≠ name) :
    e ∈ (remove_all st name).1.entries := by
  rcases hfind : st.entries.find? (fun x => x.name = name) with _ | x
  · simpa [remove_all, hfind] using he
  · by_cases hd : x.deletable
    · simp only [remove_all, hfind, hd, if_true]
      exact List.mem_filter.mpr ⟨he, by simpa using hne⟩
    · simpa [remove_all, hfind, hd] using he

lemma find?_name_of_nodup (l : List Entry) (e : Entry) (he : e ∈ l)
    (hnd : (l.map Entry.name).Nodup) :
    l.find? (fun x => x.name = e.name) = some e := by
  induction l with
  | nil => cases he
  | cons a l ih =>
    rw [List.map_cons, List.nodup_cons] at hnd
    rcases List.mem_cons.mp he with rfl | hm
    · exact List.find?_cons_of_pos _ (by simp)
    · have hne : a.name ≠ e.name := by
        intro h
        apply hnd.1
        rw [h]
        exact List.mem_map_of_mem Entry.name hm
      rw [List.find?_cons_of_neg _ (by simpa using hne)]
      exact ih hm hnd.2

lemma deleteStep_foldl_filterMap (l : List (Int × String)) (st : DirState)
    (as : List CleanAction) :
    ((l.foldl deleteStep (st, as)).2).filterMap actName
      = as.filterMap actName ++ l.map Prod.snd := by
  induction l generalizing st as with
  | nil => simp
  | cons p l ih =>
    rw [List.foldl_cons]
    have hstep : deleteStep (st, as) p
        = ((remove_all st p.2).1, as ++ [(remove_all st p.2).2]) := rfl
    rw [hstep, ih]
    rw [List.filterMap_append]
    simp [actName_remove_all]

lemma deleteStep_foldl_length (l : List (Int × String)) (st : DirState)
    (as : List CleanAction) :
    ((l.foldl deleteStep (st, as)).2).length = as.length + l.length := by
  induction l generalizing st as with
  | nil => simp
  | cons p l ih =>
    rw [List.foldl_cons]
    have hstep : deleteStep (st, as) p
        = ((remove_all st p.2).1, as ++ [(remove_all st p.2).2]) := rfl
    rw [hstep, ih]
    simp
    omega

lemma deleteStep_foldl_acc (l : List (Int × String)) (st : DirState)
    (as : List CleanAction) :
    ∃ rest, (l.foldl deleteStep (st, as)).2 = as ++ rest := by
  induction l generalizing st as with
  | nil => exact ⟨[], by simp⟩
  | cons p l ih =>
    rw [List.foldl_cons]
    have hstep : deleteStep (st, as) p
        = ((remove_all st p.2).1, as ++ [(remove_all st p.2).2]) := rfl
    rw [hstep]
    obtain ⟨rest, hr⟩ := ih (remove_all st p.2).1 (as ++ [(remove_all st p.2).2])
    exact ⟨[(remove_all st p.2).2] ++ rest, by rw [hr, List.append_assoc]⟩

lemma deleteStep_foldl_mem (l : List (Int × String)) (st : DirState)
    (as : List CleanAction) (e : Entry) (he : e ∈ st.entries)
    (hn : e.name ∉ l.map Prod.snd) :
    e ∈ ((l.foldl deleteStep (st, as)).1).entries := by
  induction l generalizing st as with
  | nil => simpa using he
  | cons p l ih =>
    rw [List.map_cons, List.mem_cons] at hn
    push_neg at hn
    rw [List.foldl_cons]
    have hstep : deleteStep (st, as) p
        = ((remove_all st p.2).1, as ++ [(remove_all st p.2).2]) := rfl
    rw [hstep]
    exact ih _ _ (remove_all_mem_of_ne st p.2 e he hn.1) hn.2

lemma deleteStep_foldl_sublist (l : List (Int × String)) (st : DirState)
    (as : List CleanAction) :
    ((l.foldl deleteStep (st, as)).1).entries.Sublist st.entries := by
  induction l generalizing st as with
  | nil => simp
  | cons p l ih =>
    rw [List.foldl_cons]
    have hstep : deleteStep (st, as) p
        = ((remove_all st p.2).1, as ++ [(remove_all st p.2).2]) := rfl
    rw [hstep]
    exact (ih _ _).trans (remove_all_entries_sublist st p.2)

lemma deleteStep_foldl_deleteErr (l : List (Int × String)) (st : DirState)
    (as : List CleanAction) (e : Entry) (hd : e.deletable = false)
    (he : e ∈ st.entries) (hnd : (st.entries.map Entry.name).Nodup)
    (hn : e.name ∈ l.map Prod.snd) :
    CleanAction.deleteErr e.name ∈ (l.foldl deleteStep (st, as)).2 := by
  induction l generalizing st as with
  | nil => simp at hn
  | cons p l ih =>
    rw [List.foldl_cons]
    have hstep : deleteStep (st, as) p
        = ((remove_all st p.2).1, as ++ [(remove_all st p.2).2]) := rfl
    rw [hstep]
    by_cases hpe : p.2 = e.name
    · have hfind : st.entries.find? (fun x => x.name = p.2) = some e := by
        rw [hpe]
        exact find?_name_of_nodup st.entries e he hnd
      have hra : remove_all st p.2 = (st, .deleteErr p.2) := by
        simp [remove_all, hfind, hd]
      rw [hra]
      obtain ⟨rest, hr⟩ :=
        deleteStep_foldl_acc l (st, CleanAction.deleteErr p.2).1
          (as ++ [(st, CleanAction.deleteErr p.2).2])
      rw [hr, hpe]
      simp
    · rw [List.map_cons, List.mem_cons] at hn
      have hn' : e.name ∈ l.map Prod.snd := by
        rcases hn with h | h
        · exact absurd h.symm hpe
        · exact h
      have hsub : ((remove_all st p.2).1.entries.map Entry.name).Nodup :=
        ((remove_all_entries_sublist st p.2).map Entry.name).nodup hnd
      exact ih _ _ (remove_all_mem_of_ne st p.2 e he fun hh => hpe hh.symm) hsub hn'

lemma sortedPairs_sorted (st : DirState) : (sortedPairs st).Pairwise pairR :=
  List.sorted_insertionSort pairR _

lemma sortedPairs_perm (st : DirState) :
    (sortedPairs st).Perm (dirsWithIter (validDirs st)) :=
  List.perm_insertionSort pairR _

lemma dirsWithIter_validDirs (st : DirState) :
    dirsWithIter (validDirs st)
      = (validDirs st).map fun e => (parseIterationNum e.name, e.name) := by
  unfold dirsWithIter
  apply List.filter_eq_self.mpr
  intro p hp
  rw [List.mem_map] at hp
  obtain ⟨e, he, rfl⟩ := hp
  unfold validDirs at he
  rw [List.mem_filter, Bool.and_eq_true] at he
  exact he.2.2

lemma validDirs_sublist (st : DirState) : (validDirs st).Sublist st.entries :=
  List.filter_sublist _

lemma sortedPairs_names_nodup (st : DirState)
    (hnd : (st.entries.map Entry.name).Nodup) :
    ((sortedPairs st).map Prod.snd).Nodup := by
  have hperm : ((sortedPairs st).map Prod.snd).Perm
      ((dirsWithIter (validDirs st)).map Prod.snd) :=
    (sortedPairs_perm st).map Prod.snd
  apply hperm.nodup_iff.mpr
  rw [dirsWithIter_validDirs, List.map_map]
  have hc : (Prod.snd ∘ fun e : Entry => (parseIterationNum e.name, e.name))
      = Entry.name := rfl
  rw [hc]
  exact ((validDirs_sublist st).map Entry.name).nodup hnd

lemma pairwise_take_drop (l : List (Int × String)) (h : l.Pairwise pairR) (n : Nat) :
    ∀ p ∈ l.take n, ∀ q ∈ l.drop n, p.1 ≤ q.1 := by
  intro p hp q hq
  have hsplit : (l.take n ++ l.drop n).Pairwise pairR := by
    rw [List.take_append_drop]
    exact h
  have := (List.pairwise_append.mp hsplit).2.2 p hp q hq
  rcases this with h1 | ⟨h1, _⟩
  · exact le_of_lt h1
  · exact le_of_eq h1

lemma pairwise_fst_take (l : List (Int × String)) (h : l.Pairwise pairR) (n : Nat) :
    ((l.take n).map Prod.fst).Pairwise (fun a b => a ≤ b) := by
  have ht : (l.take n).Pairwise pairR := h.sublist (List.take_sublist n l)
  refine List.Pairwise.map Prod.fst ?_ ht
  intro a b hab
  rcases hab with h1 | ⟨h1, _⟩
  · exact le_of_lt h1
  · exact le_of_eq h1

lemma keepRecentN_run (self : RestartCleaner) (st : DirState)
    (hex : st.pathExists = true) (hrd : st.readPermitted = true)
    (hk : 0 < self.d_keep_restart_count)
    (hgt : self.d_keep_restart_count < ((sortedPairs st).length : Int)) :
    keepRecentN self st =
      if self.d_dry_run then
        .ok (st, (deletionSet self st).map fun p => CleanAction.wouldDelete p.2)
      else
        .ok ((deletionSet self st).foldl deleteStep (st, [])) := by
  have hscan : getAllRestartDirs st = .ok (validDirs st) := by
    simp [getAllRestartDirs, hex, hrd]
  have hvne : validDirs st ≠ [] := by
    intro h
    have hsp : sortedPairs st = [] := by
      simp [sortedPairs, dirsWithIter, h]
    rw [hsp] at hgt
    simp at hgt
    omega
  have hne : (validDirs st).isEmpty = false := by
    cases hcase : validDirs st with
    | nil => exact absurd hcase hvne
    | cons a l => rfl
  have hnle : ¬ ((((dirsWithIter (validDirs st)).insertionSort pairR).length : Int)
      ≤ self.d_keep_restart_count) := by
    rw [← sortedPairs]
    omega
  simp only [keepRecentN, hscan, hne, Bool.false_eq_true, if_false, if_neg hnle]
  rfl

lemma sortedPairs_length (st : DirState) :
    (sortedPairs st).length = (validDirs st).length := by
  rw [(sortedPairs_perm st).length_eq, dirsWithIter_validDirs, List.length_map]

lemma names_take_drop_disjoint (l : List (Int × String)) (n : Nat)
    (hnd : (l.map Prod.snd).Nodup) (a : String)
    (h1 : a ∈ (l.take n).map Prod.snd) (h2 : a ∈ (l.drop n).map Prod.snd) : False := by
  have hsplit : (l.map Prod.snd) = (l.take n).map Prod.snd ++ (l.drop n).map Prod.snd := by
    rw [← List.map_append, List.take_append_drop]
  rw [hsplit, List.nodup_append] at hnd
  exact hnd.2.2 h1 h2

lemma filterMap_actName_wouldDelete (l : List (Int × String)) :
    (l.map fun p => CleanAction.wouldDelete p.2).filterMap actName = l.map Prod.snd := by
  induction l with
  | nil => rfl
  | cons p l ih => simp [actName, ih]

lemma retained_entry (st : DirState) (self : RestartCleaner) (q : Int × String)
    (hq : q ∈ retainedSet self st) :
    ∃ e ∈ st.entries, e.name = q.2 ∧ q ∈ sortedPairs st := by
  have hmem : q ∈ sortedPairs st := List.mem_of_mem_drop hq
  have hmem2 : q ∈ dirsWithIter (validDirs st) := (sortedPairs_perm st).mem_iff.mp hmem
  rw [dirsWithIter_validDirs, List.mem_map] at hmem2
  obtain ⟨e, he, rfl⟩ := hmem2
  exact ⟨e, (validDirs_sublist st).mem he, rfl, hmem⟩

/-- Claim C1: whenever the number of valid entries exceeds keepCount, the
deletion set is exactly the oldest total - keepCount entries (smallest
iteration numbers), every member of it is processed, in ascending
iteration order, and the keepCount entries with the largest iteration
numbers are retained. -/
theorem keepRecentN_deletes_oldest (self : RestartCleaner) (st : DirState)
    (hex : st.pathExists = true) (hrd : st.readPermitted = true)
    (hnd : (st.entries.map Entry.name).Nodup)
    (hk : 0 < self.d_keep_restart_count)
    (hgt : self.d_keep_restart_count < ((sortedPairs st).length : Int)) :
    ∃ st2 acts, cleanup self st = .ok (st2, acts) ∧
      acts.filterMap actName = (deletionSet self st).map Prod.snd ∧
      acts.length = (deletionSet self st).length ∧
      (deletionSet self st).length
        = (sortedPairs st).length - self.d_keep_restart_count.toNat ∧
      (retainedSet self st).length = self.d_keep_restart_count.toNat ∧
      (∀ p ∈ deletionSet self st, ∀ q ∈ retainedSet self st, p.1 ≤ q.1) ∧
      ((deletionSet self st).map Prod.fst).Pairwise (fun a b => a ≤ b) ∧
      (∀ q ∈ retainedSet self st, ∃ e ∈ st2.entries, e.name = q.2) := by
  have hsorted := sortedPairs_sorted st
  have hlen_del : (deletionSet self st).length
      = (sortedPairs st).length - self.d_keep_restart_count.toNat := by
    rw [deletionSet, List.length_take]
    omega
  have hlen_ret : (retainedSet self st).length = self.d_keep_restart_count.toNat := by
    rw [retainedSet, List.length_drop]
    omega
  have hcross : ∀ p ∈ deletionSet self st, ∀ q ∈ retainedSet self st, p.1 ≤ q.1 :=
    pairwise_take_drop _ hsorted _
  have hfst : ((deletionSet self st).map Prod.fst).Pairwise (fun a b => a ≤ b) :=
    pairwise_fst_take _ hsorted _
  have hsurv_name : ∀ q ∈ retainedSet self st,
      q.2 ∉ (deletionSet self st).map Prod.snd := by
    intro q hq hmem
    have hnd2 := sortedPairs_names_nodup st hnd
    have h2 : q.2 ∈ ((sortedPairs st).drop
        (((sortedPairs st).length : Int) - self.d_keep_restart_count).toNat).map Prod.snd :=
      List.mem_map_of_mem Prod.snd hq
    exact names_take_drop_disjoint (sortedPairs st) _ hnd2 q.2 hmem h2
  rw [show cleanup self st = keepRecentN self st from rfl,
    keepRecentN_run self st hex hrd hk hgt]
  by_cases hdry : self.d_dry_run
  · rw [if_pos hdry]
    refine ⟨st, _, rfl, ?_, ?_, hlen_del, hlen_ret, hcross, hfst, ?_⟩
    · exact filterMap_actName_wouldDelete _
    · rw [List.length_map]
    · intro q hq
      obtain ⟨e, he, hname, _⟩ := retained_entry st self q hq
      exact ⟨e, he, hname⟩
  · rw [if_neg hdry]
    refine ⟨_, _, rfl, ?_, ?_, hlen_del, hlen_ret, hcross, hfst, ?_⟩
    · rw [deleteStep_foldl_filterMap]
      simp
    · rw [deleteStep_foldl_length]
      simp
    · intro q hq
      obtain ⟨e, he, hname, _⟩ := retained_entry st self q hq
      refine ⟨e, ?_, hname⟩
      apply deleteStep_foldl_mem _ st [] e he
      rw [hname]
      exact hsurv_name q hq

/-- Claim C5: when the number of valid entries is at most keepCount
(including zero), cleanup() deletes nothing, leaves the filesystem state
unchanged regardless of the dry-run flag, and reports no-cleanup-needed
(or nothing-found when there are no entries). -/
theorem cleanup_within_keep_no_deletion (self : RestartCleaner) (st : DirState)
    (hex : st.pathExists = true) (hrd : st.readPermitted = true)
    (hle : ((validDirs st).length : Int) ≤ self.d_keep_restart_count) :
    (validDirs st = [] → cleanup self st = .ok (st, [CleanAction.noneFound])) ∧
    (validDirs st ≠ [] →
      cleanup self st = .ok (st, [CleanAction.noCleanupNeeded (validDirs st).length])) := by
  have hscan : getAllRestartDirs st = .ok (validDirs st) := by
    simp [getAllRestartDirs, hex, hrd]
  constructor
  · intro h
    have hemp : (validDirs st).isEmpty = true := by rw [h]; rfl
    simp only [cleanup, executeStrategy, keepRecentN, hscan, hemp, if_true]
  · intro h
    have hemp : (validDirs st).isEmpty = false := by
      cases hcase : validDirs st with
      | nil => exact absurd hcase h
      | cons a l => rfl
    have hlen : (((dirsWithIter (validDirs st)).insertionSort pairR).length : Int)
        ≤ self.d_keep_restart_count := by
      rw [← sortedPairs, sortedPairs_length]
      exact hle
    simp only [cleanup, executeStrategy, keepRecentN, hscan, hemp, Bool.false_eq_true,
      if_false, if_pos hlen]
    have : ((dirsWithIter (validDirs st)).insertionSort pairR).length
        = (validDirs st).length := by
      rw [← sortedPairs, sortedPairs_length]
    rw [this]

/-- Claim C6: with dry-run enabled, cleanup() is a no-op on the
filesystem: the resulting state is the initial one, a subsequent
getAvailableIterations() returns the same list as before, and no deletion
is performed (the reported actions contain no executed deletion). -/
theorem cleanup_dry_run_noop (self : RestartCleaner) (st : DirState)
    (hdry : self.d_dry_run = true) :
    ∀ st2 acts, cleanup self st = .ok (st2, acts) →
      st2 = st ∧ getAvailableIterations st2 = getAvailableIterations st ∧
      ∀ a ∈ acts, ∀ n, a ≠ CleanAction.deleted n := by
  intro st2 acts h
  cases hscan : getAllRestartDirs st with
  | error e =>
    rw [show cleanup self st = keepRecentN self st from rfl] at h
    unfold keepRecentN at h
    rw [hscan] at h
    exact absurd h (by simp)
  | ok all_dirs =>
    rw [show cleanup self st = keepRecentN self st from rfl] at h
    unfold keepRecentN at h
    rw [hscan] at h
    dsimp only at h
    by_cases hemp : all_dirs.isEmpty
    · rw [if_pos hemp] at h
      obtain ⟨h1, h2⟩ := Prod.mk.injEq .. ▸ Except.ok.inj h
      refine ⟨h1.symm, by rw [h1], ?_⟩
      intro a ha n
      rw [← h2] at ha
      rcases List.mem_singleton.mp ha with rfl
      exact fun hc => CleanAction.noConfusion hc
    · rw [if_neg hemp] at h
      by_cases hlen : (((dirsWithIter all_dirs).insertionSort pairR).length : Int)
          ≤ self.d_keep_restart_count
      · rw [if_pos hlen] at h
        obtain ⟨h1, h2⟩ := Prod.mk.injEq .. ▸ Except.ok.inj h
        refine ⟨h1.symm, by rw [h1], ?_⟩
        intro a ha n
        rw [← h2] at ha
        rcases List.mem_singleton.mp ha with rfl
        exact fun hc => CleanAction.noConfusion hc
      · rw [if_neg hlen, if_pos hdry] at h
        obtain ⟨h1, h2⟩ := Prod.mk.injEq .. ▸ Except.ok.inj h
        refine ⟨h1.symm, by rw [h1], ?_⟩
        intro a ha n
        rw [← h2] at ha
        rw [List.mem_map] at ha
        obtain ⟨p, _, rfl⟩ := ha
        exact fun hc => CleanAction.noConfusion hc

/-- Claim C7: in non-dry-run mode, when deleting one entry of the
deletion set fails, the failure is caught and reported with the offending
path, every remaining entry of the deletion set is still attempted (one
report per member, in order), and the run completes without escalating
the per-item error. -/
theorem cleanup_partial_failure (self : RestartCleaner) (st : DirState)
    (hex : st.pathExists = true) (hrd : st.readPermitted = true)
    (hnd : (st.entries.map Entry.name).Nodup)
    (hk : 0 < self.d_keep_restart_count)
    (hgt : self.d_keep_restart_count < ((sortedPairs st).length : Int))
    (hdry : self.d_dry_run = false)
    (e : Entry) (he : e ∈ st.entries) (hdel : e.deletable = false)
    (hmem : e.name ∈ (deletionSet self st).map Prod.snd) :
    ∃ st2 acts, cleanup self st = .ok (st2, acts) ∧
      CleanAction.deleteErr e.name ∈ acts ∧
      acts.filterMap actName = (deletionSet self st).map Prod.snd ∧
      acts.length = (deletionSet self st).length := by
  rw [show cleanup self st = keepRecentN self st from rfl,
    keepRecentN_run self st hex hrd hk hgt, if_neg (by simp [hdry])]
  refine ⟨_, _, rfl, ?_, ?_, ?_⟩
  · exact deleteStep_foldl_deleteErr _ st [] e hdel he hnd hmem
  · rw [deleteStep_foldl_filterMap]
    simp
  · rw [deleteStep_foldl_length]
    simp

/-- Counterexample to claim C3 as stated: a state in which the base path
cannot be read because it no longer exists (e.g. removed after
construction); the scan does not fail — cleanup() returns normally with
an empty scan instead of propagating an error to its caller. -/
theorem cleanup_missing_base_no_error :
    (¬ ((⟨false, false, []⟩ : DirState).pathExists = true ∧
        (⟨false, false, []⟩ : DirState).readPermitted = true)) ∧
    cleanup ⟨"restart_IB2d", CleanupStrategy.KEEP_RECENT_N, 3, false⟩ ⟨false, false, []⟩
      = .ok (⟨false, false, []⟩, [CleanAction.noneFound]) :=
  ⟨by decide, by rfl⟩

/-- Claim C3 (amended): when the base path exists but reading it is not
permitted, the scan fails and the error propagates to the caller of
cleanup(); when the base path does not exist at cleanup time, the scan
instead yields no entries and cleanup() completes normally. -/
theorem cleanup_scan_error_propagation (self : RestartCleaner) (st : DirState) :
    (st.pathExists = true → st.readPermitted = false →
      cleanup self st = .error "RestartCleaner: Error scanning directory") ∧
    (st.pathExists = false → cleanup self st = .ok (st, [CleanAction.noneFound])) := by
  constructor
  · intro hex hrd
    have hscan : getAllRestartDirs st
        = .error "RestartCleaner: Error scanning directory" := by
      simp [getAllRestartDirs, hex, hrd]
    simp only [cleanup, executeStrategy, keepRecentN, hscan]
  · intro hex
    have hscan : getAllRestartDirs st = .ok [] := by
      simp [getAllRestartDirs, hex]
    simp only [cleanup, executeStrategy, keepRecentN, hscan, List.isEmpty_nil, if_true]

/-- Witness for the amended C3 at a concrete state: existing but
unreadable base path, the scan error reaches the caller of cleanup(). -/
theorem cleanup_scan_error_propagation_witness :
    cleanup ⟨"restart_IB2d", CleanupStrategy.KEEP_RECENT_N, 3, false⟩
        ⟨true, false, [⟨"restore.000001", true, true⟩]⟩
      = .error "RestartCleaner: Error scanning directory" :=
  (cleanup_scan_error_propagation ⟨"restart_IB2d", CleanupStrategy.KEEP_RECENT_N, 3, false⟩
    ⟨true, false, [⟨"restore.000001", true, true⟩]⟩).1 rfl rfl

/-- Claim C4: the read-only query never fails: for every state it returns
a list sorted ascending containing no sentinel/negative values; a scan
error is caught and turned into the empty result; on a successful scan
the result is exactly the multiset of parsed iteration numbers of the
validly-named subdirectories. -/
theorem getAvailableIterations_spec (st : DirState) :
    (getAvailableIterations st).Pairwise (fun a b => a ≤ b) ∧
    (∀ i ∈ getAvailableIterations st, 0 ≤ i) ∧
    (∀ e, getAllRestartDirs st = .error e → getAvailableIterations st = []) ∧
    (∀ dirs, getAllRestartDirs st = .ok dirs →
      (getAvailableIterations st).Perm (dirs.map fun e => parseIterationNum e.name)) := by
  cases hscan : getAllRestartDirs st with
  | error e =>
    refine ⟨?_, ?_, ?_, ?_⟩ <;> simp [getAvailableIterations, hscan]
  | ok dirs =>
    have hdirs : dirs = validDirs st ∨ dirs = [] := by
      unfold getAllRestartDirs at hscan
      by_cases hex : st.pathExists
      · rw [if_pos hex] at hscan
        by_cases hrd : st.readPermitted
        · rw [if_pos hrd] at hscan
          exact Or.inl (Except.ok.inj hscan).symm
        · rw [if_neg hrd] at hscan
          exact absurd hscan (by simp)
      · rw [if_neg hex] at hscan
        exact Or.inr (Except.ok.inj hscan).symm
    have hall : ∀ i ∈ dirs.map fun e => parseIterationNum e.name, decide (0 ≤ i) = true := by
      intro i hi
      rw [List.mem_map] at hi
      obtain ⟨e, he, rfl⟩ := hi
      rcases hdirs with h | h
      · rw [h] at he
        unfold validDirs at he
        rw [List.mem_filter, Bool.and_eq_true] at he
        exact he.2.2
      · rw [h] at he
        cases he
    have hfe : (dirs.map fun e => parseIterationNum e.name).filter (fun i => decide (0 ≤ i))
        = dirs.map fun e => parseIterationNum e.name :=
      List.filter_eq_self.mpr hall
    refine ⟨?_, ?_, ?_, ?_⟩
    · simp only [getAvailableIterations, hscan]
      exact List.sorted_insertionSort _ _
    · intro i hi
      simp only [getAvailableIterations, hscan] at hi
      rw [List.mem_insertionSort] at hi
      have := List.of_mem_filter hi
      simpa using this
    · intro e he
      exact absurd he (by simp)
    · intro dirs2 hdirs2
      obtain rfl := Except.ok.inj hdirs2
      simp only [getAvailableIterations, hscan, hfe]
      exact List.perm_insertionSort _ _

/-- Witness for C4 at concrete states: a scan error yields the empty
list; a mixed directory yields the sorted valid iterations. -/
theorem getAvailableIterations_spec_witness :
    getAvailableIterations ⟨true, false, [⟨"restore.000001", true, true⟩]⟩ = [] ∧
    getAvailableIterations ⟨true, true, [⟨"restore.000100", true, true⟩,
      ⟨"junk", true, true⟩, ⟨"restore.000001", true, true⟩,
      ⟨"notes.txt", false, true⟩]⟩ = [1, 100] := by
  constructor
  · exact (getAvailableIterations_spec
      ⟨true, false, [⟨"restore.000001", true, true⟩]⟩).2.2.1 _ rfl
  · decide

/-- Claim C8: construction of a RestartCleaner succeeds iff the
keep-count is positive, the base path exists at construction time, and
the strategy string is the recognized value KEEP_RECENT_N; it throws
otherwise; on success the stored configuration is exactly the given
arguments (the model is purely functional, so no later operation mutates
it). -/
theorem mkRestartCleaner_spec (bp : String) (ex : Bool) (kc : Int)
    (strat : String) (dr : Bool) :
    ((∃ c, mkRestartCleaner bp ex kc strat dr = .ok c) ↔
      (0 < kc ∧ ex = true ∧ strat = "KEEP_RECENT_N")) ∧
    (∀ c, mkRestartCleaner bp ex kc strat dr = .ok c →
      c = ⟨bp, CleanupStrategy.KEEP_RECENT_N, kc, dr⟩) := by
  by_cases hs : strat = "KEEP_RECENT_N"
  · have hps : parseStrategy strat = .ok .KEEP_RECENT_N := by
      simp [parseStrategy, hs]
    by_cases hk : kc ≤ 0
    · have hcalc : mkRestartCleaner bp ex kc strat dr
          = .error "RestartCleaner: keep_restart_count must be positive" := by
        simp only [mkRestartCleaner, hps, if_pos hk]
      rw [hcalc]
      constructor
      · constructor
        · rintro ⟨c, hc⟩
          exact absurd hc (by simp)
        · rintro ⟨hk2, _, _⟩
          omega
      · intro c hc
        exact absurd hc (by simp)
    · by_cases he : ex = true
      · have hcalc : mkRestartCleaner bp ex kc strat dr
            = .ok ⟨bp, CleanupStrategy.KEEP_RECENT_N, kc, dr⟩ := by
          simp [mkRestartCleaner, hps, if_neg hk, he]
        rw [hcalc]
        constructor
        · constructor
          · intro _
            exact ⟨by omega, he, hs⟩
          · intro _
            exact ⟨_, rfl⟩
        · intro c hc
          exact (Except.ok.inj hc).symm
      · have hcalc : mkRestartCleaner bp ex kc strat dr
            = .error ("RestartCleaner: restart_base_path does not exist: " ++ bp) := by
          simp only [mkRestartCleaner, hps, if_neg hk, if_pos he]
        rw [hcalc]
        constructor
        · constructor
          · rintro ⟨c, hc⟩
            exact absurd hc (by simp)
          · rintro ⟨_, hex, _⟩
            exact absurd hex he
        · intro c hc
          exact absurd hc (by simp)
  · have hps : parseStrategy strat = .error ("RestartCleaner: Unknown strategy: " ++ strat) := by
      simp [parseStrategy, hs]
    have hcalc : mkRestartCleaner bp ex kc strat dr
        = .error ("RestartCleaner: Unknown strategy: " ++ strat) := by
      simp only [mkRestartCleaner, hps]
    rw [hcalc]
    constructor
    · constructor
      · rintro ⟨c, hc⟩
        exact absurd hc (by simp)
      · rintro ⟨_, _, hstrat⟩
        exact absurd hstrat hs
    · intro c hc
      exact absurd hc (by simp)

/-- Witness for C8: a valid construction succeeds and stores exactly the
given configuration. -/
theorem mkRestartCleaner_spec_witness :
    mkRestartCleaner "restart_IB2d" true 5 "KEEP_RECENT_N" false
      = .ok ⟨"restart_IB2d", CleanupStrategy.KEEP_RECENT_N, 5, false⟩ := by
  obtain ⟨c, hc⟩ := (mkRestartCleaner_spec "restart_IB2d" true 5 "KEEP_RECENT_N" false).1.mpr
    ⟨by norm_num, rfl, rfl⟩
  have h2 := (mkRestartCleaner_spec "restart_IB2d" true 5 "KEEP_RECENT_N" false).2 c hc
  rw [← h2]
  exact hc

/-- Witness for C1 on the spec's own example: iterations
{1,100,200,300,1000,2500,3000,5000,999999} with keep-count 3: the
deletion set is the 6 smallest and the retained set {3000,5000,999999}. -/
theorem keepRecentN_deletes_oldest_witness :
    ((deletionSet ⟨"restart_IB2d", CleanupStrategy.KEEP_RECENT_N, 3, false⟩
        ⟨true, true, [⟨"restore.005000", true, true⟩, ⟨"restore.000001", true, true⟩,
          ⟨"restore.002500", true, true⟩, ⟨"restore.000100", true, true⟩,
          ⟨"restore.999999", true, true⟩, ⟨"restore.000300", true, true⟩,
          ⟨"restore.000200", true, true⟩, ⟨"restore.003000", true, true⟩,
          ⟨"restore.001000", true, true⟩]⟩).map Prod.fst
      = [1, 100, 200, 300, 1000, 2500]) ∧
    ((retainedSet ⟨"restart_IB2d", CleanupStrategy.KEEP_RECENT_N, 3, false⟩
        ⟨true, true, [⟨"restore.005000", true, true⟩, ⟨"restore.000001", true, true⟩,
          ⟨"restore.002500", true, true⟩, ⟨"restore.000100", true, true⟩,
          ⟨"restore.999999", true, true⟩, ⟨"restore.000300", true, true⟩,
          ⟨"restore.000200", true, true⟩, ⟨"restore.003000", true, true⟩,
          ⟨"restore.001000", true, true⟩]⟩).map Prod.fst
      = [3000, 5000, 999999]) ∧
    (∃ st2 acts,
      cleanup ⟨"restart_IB2d", CleanupStrategy.KEEP_RECENT_N, 3, false⟩
          ⟨true, true, [⟨"restore.005000", true, true⟩, ⟨"restore.000001", true, true⟩,
            ⟨"restore.002500", true, true⟩, ⟨"restore.000100", true, true⟩,
            ⟨"restore.999999", true, true⟩, ⟨"restore.000300", true, true⟩,
            ⟨"restore.000200", true, true⟩, ⟨"restore.003000", true, true⟩,
            ⟨"restore.001000", true, true⟩]⟩ = .ok (st2, acts) ∧
      acts.filterMap actName
        = (deletionSet ⟨"restart_IB2d", CleanupStrategy.KEEP_RECENT_N, 3, false⟩
            ⟨true, true, [⟨"restore.005000", true, true⟩, ⟨"restore.000001", true, true⟩,
              ⟨"restore.002500", true, true⟩, ⟨"restore.000100", true, true⟩,
              ⟨"restore.999999", true, true⟩, ⟨"restore.000300", true, true⟩,
              ⟨"restore.000200", true, true⟩, ⟨"restore.003000", true, true⟩,
              ⟨"restore.001000", true, true⟩]⟩).map Prod.snd) := by
  refine ⟨by decide, by decide, ?_⟩
  obtain ⟨st2, acts, h1, h2, -⟩ :=
    keepRecentN_deletes_oldest ⟨"restart_IB2d", CleanupStrategy.KEEP_RECENT_N, 3, false⟩
      ⟨true, true, [⟨"restore.005000", true, true⟩, ⟨"restore.000001", true, true⟩,
        ⟨"restore.002500", true, true⟩, ⟨"restore.000100", true, true⟩,
        ⟨"restore.999999", true, true⟩, ⟨"restore.000300", true, true⟩,
        ⟨"restore.000200", true, true⟩, ⟨"restore.003000", true, true⟩,
        ⟨"restore.001000", true, true⟩]⟩ rfl rfl (by decide) (by decide) (by decide)
  exact ⟨st2, acts, h1, h2⟩

/-- Witness for C5: two valid entries and keep-count 5: cleanup leaves
the state unchanged and reports that no cleanup is needed. -/
theorem cleanup_within_keep_no_deletion_witness :
    cleanup ⟨"restart_IB2d", CleanupStrategy.KEEP_RECENT_N, 5, false⟩
        ⟨true, true, [⟨"restore.000007", true, true⟩, ⟨"notes.txt", false, true⟩,
          ⟨"restore.000001", true, true⟩]⟩
      = .ok (⟨true, true, [⟨"restore.000007", true, true⟩, ⟨"notes.txt", false, true⟩,
          ⟨"restore.000001", true, true⟩]⟩, [CleanAction.noCleanupNeeded 2]) := by
  have h := (cleanup_within_keep_no_deletion
    ⟨"restart_IB2d", CleanupStrategy.KEEP_RECENT_N, 5, false⟩
    ⟨true, true, [⟨"restore.000007", true, true⟩, ⟨"notes.txt", false, true⟩,
      ⟨"restore.000001", true, true⟩]⟩ rfl rfl (by decide)).2 (by decide)
  exact h

/-- Witness for C6: a dry-run cleanup over two entries with keep-count 1
only reports the would-be deletion and leaves the state unchanged. -/
theorem cleanup_dry_run_noop_witness :
    cleanup ⟨"restart_IB2d", CleanupStrategy.KEEP_RECENT_N, 1, true⟩
        ⟨true, true, [⟨"restore.000007", true, true⟩, ⟨"restore.000001", true, true⟩]⟩
      = .ok (⟨true, true, [⟨"restore.000007", true, true⟩, ⟨"restore.000001", true, true⟩]⟩,
          [CleanAction.wouldDelete "restore.000001"]) ∧
    (∀ a ∈ [CleanAction.wouldDelete "restore.000001"], ∀ n,
      a ≠ CleanAction.deleted n) := by
  have hrun : cleanup ⟨"restart_IB2d", CleanupStrategy.KEEP_RECENT_N, 1, true⟩
      ⟨true, true, [⟨"restore.000007", true, true⟩, ⟨"restore.000001", true, true⟩]⟩
      = .ok (⟨true, true, [⟨"restore.000007", true, true⟩, ⟨"restore.000001", true, true⟩]⟩,
          [CleanAction.wouldDelete "restore.000001"]) := by rfl
  exact ⟨hrun, (cleanup_dry_run_noop _ _ rfl _ _ hrun).2.2⟩

/-- Witness for C7: keep-count 1 over three entries, the oldest of which
cannot be deleted: the failure is reported and the second member of the
deletion set is still attempted. -/
theorem cleanup_partial_failure_witness :
    ∃ st2 acts,
      cleanup ⟨"restart_IB2d", CleanupStrategy.KEEP_RECENT_N, 1, false⟩
          ⟨true, true, [⟨"restore.000100", true, true⟩, ⟨"restore.000001", true, false⟩,
            ⟨"restore.000007", true, true⟩]⟩ = .ok (st2, acts) ∧
      CleanAction.deleteErr "restore.000001" ∈ acts ∧
      acts.filterMap actName
        = (deletionSet ⟨"restart_IB2d", CleanupStrategy.KEEP_RECENT_N, 1, false⟩
            ⟨true, true, [⟨"restore.000100", true, true⟩, ⟨"restore.000001", true, false⟩,
              ⟨"restore.000007", true, true⟩]⟩).map Prod.snd ∧
      acts.length = (deletionSet ⟨"restart_IB2d", CleanupStrategy.KEEP_RECENT_N, 1, false⟩
          ⟨true, true, [⟨"restore.000100", true, true⟩, ⟨"restore.000001", true, false⟩,
            ⟨"restore.000007", true, true⟩]⟩).length :=
  cleanup_partial_failure ⟨"restart_IB2d", CleanupStrategy.KEEP_RECENT_N, 1, false⟩
    ⟨true, true, [⟨"restore.000100", true, true⟩, ⟨"restore.000001", true, false⟩,
      ⟨"restore.000007", true, true⟩]⟩ rfl rfl (by decide) (by decide) (by decide) rfl
    ⟨"restore.000001", true, false⟩ (by decide) rfl (by decide)

lemma cleanup_ok_of_scan_ok (self : RestartCleaner) (st : DirState)
    (hex : st.pathExists = true) (hrd : st.readPermitted = true) :
    ∃ out, cleanup self st = .ok out := by
  have hscan : getAllRestartDirs st = .ok (validDirs st) := by
    simp [getAllRestartDirs, hex, hrd]
  simp only [cleanup, executeStrategy, keepRecentN, hscan]
  split
  · exact ⟨_, rfl⟩
  · split
    · exact ⟨_, rfl⟩
    · split
      · exact ⟨_, rfl⟩
      · exact ⟨_, rfl⟩

lemma cleanup_scan_err (self : RestartCleaner) (st : DirState)
    (hex : st.pathExists = true) (hrd : st.readPermitted = false) :
    cleanup self st = .error "RestartCleaner: Error scanning directory" := by
  have hscan : getAllRestartDirs st
      = .error "RestartCleaner: Error scanning directory" := by
    simp [getAllRestartDirs, hex, hrd]
  simp only [cleanup, executeStrategy, keepRecentN, hscan]

lemma main_fail_case (args : List String) (st : DirState)
    (hM : mainModel args st = ⟨1, st, none⟩) (hno : ¬ argsOk args st) :
    ((mainModel args st).exitCode = 0 ∨ (mainModel args st).exitCode = 1) ∧
    ((mainModel args st).exitCode = 0 ↔ argsOk args st) ∧
    ((mainModel args st).exitCode = 1 →
      (mainModel args st).finalState = st ∧ (mainModel args st).remainingCount = none) ∧
    ((mainModel args st).exitCode = 0 →
      (mainModel args st).remainingCount
        = some (getAvailableIterations (mainModel args st).finalState).length) := by
  rw [hM]
  refine ⟨Or.inr rfl, ?_, fun _ => ⟨rfl, rfl⟩, ?_⟩
  · constructor
    · intro h
      simp at h
    · intro h
      exact absurd h hno
  · intro h
    simp at h

lemma main_ok_case (args : List String) (st : DirState) (st2 : DirState)
    (hM : mainModel args st = ⟨0, st2, some (getAvailableIterations st2).length⟩)
    (hok : argsOk args st) :
    ((mainModel args st).exitCode = 0 ∨ (mainModel args st).exitCode = 1) ∧
    ((mainModel args st).exitCode = 0 ↔ argsOk args st) ∧
    ((mainModel args st).exitCode = 1 →
      (mainModel args st).finalState = st ∧ (mainModel args st).remainingCount = none) ∧
    ((mainModel args st).exitCode = 0 →
      (mainModel args st).remainingCount
        = some (getAvailableIterations (mainModel args st).finalState).length) := by
  rw [hM]
  refine ⟨Or.inl rfl, ⟨fun _ => hok, fun _ => rfl⟩, ?_, fun _ => rfl⟩
  intro h
  simp at h

/-- Claim C9: every run of main exits 0 or 1; it exits 0 exactly when the
argument count is right, the option is --recent, any fourth argument is
--dry-run, N parses as a positive int, and the core raises no exception
(base path exists and is readable); every failure (usage error, bad N, or
an exception from the core caught at the boundary) exits 1 leaving the
filesystem unchanged; on success the final count of remaining directories
is printed. -/
theorem main_spec (args : List String) (st : DirState) :
    ((mainModel args st).exitCode = 0 ∨ (mainModel args st).exitCode = 1) ∧
    ((mainModel args st).exitCode = 0 ↔ argsOk args st) ∧
    ((mainModel args st).exitCode = 1 →
      (mainModel args st).finalState = st ∧ (mainModel args st).remainingCount = none) ∧
    ((mainModel args st).exitCode = 0 →
      (mainModel args st).remainingCount
        = some (getAvailableIterations (mainModel args st).finalState).length) := by
  by_cases h1 : args.length + 1 < 4 ∨ 5 < args.length + 1
  · refine main_fail_case args st ?_ ?_
    · simp only [mainModel, if_pos h1]
    · rintro ⟨hlen, -⟩
      omega
  · by_cases hopt : args.getD 0 "" = "--recent"
    · rcases hdc : (if args.length + 1 = 5 then
          (if args.getD 3 "" = "--dry-run" then some true else none)
        else some false) with _ | dry
      · -- dryRunCheck = none: wrong flag in position 4
        have hlen5 : args.length + 1 = 5 := by
          by_contra hc
          rw [if_neg hc] at hdc
          exact Option.noConfusion hdc
        have hflag : ¬ args.getD 3 "" = "--dry-run" := by
          intro hc
          rw [if_pos hlen5, if_pos hc] at hdc
          exact Option.noConfusion hdc
        refine main_fail_case args st ?_ ?_
        · simp only [mainModel, if_neg h1, if_neg (not_not_intro hopt), hdc]
        · rintro ⟨-, -, h3, -⟩
          exact hflag (h3 (by omega))
      · -- dryRunCheck = some dry
        have hflagOk : args.length = 4 → args.getD 3 "" = "--dry-run" := by
          intro h4
          by_contra hc
          rw [if_pos (by omega), if_neg hc] at hdc
          exact Option.noConfusion hdc
        rcases hstoi : stoi (args.getD 1 "") with e | n
        · refine main_fail_case args st ?_ ?_
          · simp only [mainModel, if_neg h1, if_neg (not_not_intro hopt), hdc, hstoi]
          · rintro ⟨-, -, -, ⟨m, hm, -⟩, -⟩
            rw [hstoi] at hm
            exact Except.noConfusion hm
        · by_cases hn : n ≤ 0
          · refine main_fail_case args st ?_ ?_
            · simp only [mainModel, if_neg h1, if_neg (not_not_intro hopt), hdc, hstoi,
                if_pos hn]
            · rintro ⟨-, -, -, ⟨m, hm, hmpos⟩, -⟩
              rw [hstoi] at hm
              obtain rfl := Except.ok.inj hm
              omega
          · by_cases hex : st.pathExists = true
            · by_cases hrd : st.readPermitted = true
              · -- full success
                have hmk : mkRestartCleaner (args.getD 2 "") st.pathExists n
                    "KEEP_RECENT_N" dry
                    = .ok ⟨args.getD 2 "", CleanupStrategy.KEEP_RECENT_N, n, dry⟩ := by
                  simp [mkRestartCleaner, parseStrategy, hex, hn]
                obtain ⟨⟨st2, acts⟩, hclean⟩ := cleanup_ok_of_scan_ok
                  ⟨args.getD 2 "", CleanupStrategy.KEEP_RECENT_N, n, dry⟩ st hex hrd
                refine main_ok_case args st st2 ?_ ?_
                · simp only [mainModel, if_neg h1, if_neg (not_not_intro hopt), hdc, hstoi,
                    if_neg hn, hmk, hclean]
                · exact ⟨by omega, hopt, hflagOk, ⟨n, hstoi, by omega⟩, hex, hrd⟩
              · -- scan error propagates: exit 1
                have hrd' : st.readPermitted = false := by
                  cases hc : st.readPermitted
                  · rfl
                  · exact absurd hc hrd
                have hmk : mkRestartCleaner (args.getD 2 "") st.pathExists n
                    "KEEP_RECENT_N" dry
                    = .ok ⟨args.getD 2 "", CleanupStrategy.KEEP_RECENT_N, n, dry⟩ := by
                  simp [mkRestartCleaner, parseStrategy, hex, hn]
                have hclean := cleanup_scan_err
                  ⟨args.getD 2 "", CleanupStrategy.KEEP_RECENT_N, n, dry⟩ st hex hrd'
                refine main_fail_case args st ?_ ?_
                · simp only [mainModel, if_neg h1, if_neg (not_not_intro hopt), hdc, hstoi,
                    if_neg hn, hmk, hclean]
                · rintro ⟨-, -, -, -, -, hrd2⟩
                  exact hrd hrd2
            · -- base path missing at construction: exit 1
              have hex' : st.pathExists = false := by
                cases hc : st.pathExists
                · rfl
                · exact absurd hc hex
              have hmk : mkRestartCleaner (args.getD 2 "") st.pathExists n
                  "KEEP_RECENT_N" dry
                  = .error ("RestartCleaner: restart_base_path does not exist: "
                      ++ args.getD 2 "") := by
                simp [mkRestartCleaner, parseStrategy, hex', hn]
              refine main_fail_case args st ?_ ?_
              · simp only [mainModel, if_neg h1, if_neg (not_not_intro hopt), hdc, hstoi,
                  if_neg hn, hmk]
              · rintro ⟨-, -, -, -, hex2, -⟩
                exact hex hex2
    · refine main_fail_case args st ?_ ?_
      · simp only [mainModel, if_neg h1, if_pos hopt]
      · rintro ⟨-, hopt2, -⟩
        exact hopt hopt2

/-- Witness for C9: a concrete valid invocation exits 0 and reports the
final remaining-directory count; an unknown fourth flag exits 1. -/
theorem main_spec_witness :
    (mainModel ["--recent", "2", "restart_IB2d"] ⟨true, true,
      [⟨"restore.000100", true, true⟩, ⟨"restore.000001", true, true⟩,
       ⟨"restore.000007", true, true⟩]⟩).exitCode = 0 ∧
    (mainModel ["--recent", "2", "restart_IB2d"] ⟨true, true,
      [⟨"restore.000100", true, true⟩, ⟨"restore.000001", true, true⟩,
       ⟨"restore.000007", true, true⟩]⟩).remainingCount = some 2 ∧
    (mainModel ["--recent", "2", "restart_IB2d", "--oops"] ⟨true, true, []⟩).exitCode = 1 := by
  have h := main_spec ["--recent", "2", "restart_IB2d"] ⟨true, true,
    [⟨"restore.000100", true, true⟩, ⟨"restore.000001", true, true⟩,
     ⟨"restore.000007", true, true⟩]⟩
  have h0 : (mainModel ["--recent", "2", "restart_IB2d"] ⟨true, true,
      [⟨"restore.000100", true, true⟩, ⟨"restore.000001", true, true⟩,
       ⟨"restore.000007", true, true⟩]⟩).exitCode = 0 :=
    h.2.1.mpr ⟨Or.inl rfl, rfl, fun hc => absurd hc (by norm_num),
      ⟨2, rfl, by norm_num⟩, rfl, rfl⟩
  refine ⟨h0, ?_, by rfl⟩
  rfl
